import Mathlib

/-!
Verification of the spot-reconciliation and geospatial-validation scripts.

Strings are modelled as lists of characters (`Str`); Python string
operations (`startswith`, `in`, `split`, `replace`, `lower`) are embedded
as structurally recursive functions on `Str` so that every definition is
executable and decidable on concrete inputs.
-/

/-- Character-list strings, the universal string representation of the
embedding. -/
abbrev Str := List Char

/-- Coerce a Lean string literal to its character list. -/
def chars (s : String) : Str := s.data

/-- Python `s.startswith(p)`: `isPre p s` is true when `p` is a prefix
of `s`. -/
def isPre : Str → Str → Bool
  | [], _ => true
  | _ :: _, [] => false
  | a :: ps, b :: ss => a == b && isPre ps ss

/-- Python `pat in s`: substring containment. -/
def containsSub (pat : Str) : Str → Bool
  | [] => isPre pat []
  | c :: ss => isPre pat (c :: ss) || containsSub pat ss

/-- Helper for `splitOnChar`: prepend a character to the first piece. -/
def consHead (x : Char) : List Str → List Str
  | [] => [[x]]
  | p :: ps => (x :: p) :: ps

/-- Python `s.split(c)` for a one-character separator: keeps empty pieces,
`"".split(c) == [""]`. -/
def splitOnChar (c : Char) : Str → List Str
  | [] => [[]]
  | x :: xs => if x = c then [] :: splitOnChar c xs else consHead x (splitOnChar c xs)

/-- Split on a set of separator characters (used for `pathlib` name
extraction, where both `/` and `\` separate components). -/
def splitOnSeps (seps : List Char) : Str → List Str
  | [] => [[]]
  | x :: xs => if x ∈ seps then [] :: splitOnSeps seps xs else consHead x (splitOnSeps seps xs)

/-- Lexicographic (code-point) order on character lists, matching Python
string comparison used by `sorted`. -/
def strLe : Str → Str → Bool
  | [], _ => true
  | _ :: _, [] => false
  | a :: as_, b :: bs =>
    if a < b then true else if b < a then false else strLe as_ bs

/-- Stable insertion used by `sortLe`: an element is placed after all
existing elements that compare `le` to it. -/
def insertLe (le : α → α → Bool) (x : α) : List α → List α
  | [] => [x]
  | y :: ys => if le y x then y :: insertLe le x ys else x :: y :: ys

/-- Stable sort (insertion sort, processed left to right), matching the
order produced by Python `sorted`. -/
def sortLe (le : α → α → Bool) (l : List α) : List α :=
  l.foldl (fun acc x => insertLe le x acc) []

/-- Worker for `removeAll`: `skip` characters of an already-matched
pattern occurrence remain to be dropped. -/
def removeAllAux (pat : Str) : Nat → Str → Str
  | _, [] => []
  | n + 1, _ :: xs => removeAllAux pat n xs
  | 0, x :: xs =>
    if isPre pat (x :: xs) then removeAllAux pat (pat.length - 1) xs
    else x :: removeAllAux pat 0 xs

/-- Python `s.replace(pat, '')`: remove every (left-to-right,
non-overlapping) occurrence of `pat`. -/
def removeAll (pat s : Str) : Str := removeAllAux pat 0 s

/-- Numeric value of a digit string. -/
def digitsToNat (s : Str) : Nat :=
  s.foldl (fun n c => n * 10 + (c.toNat - 48)) 0

/-- Worker for `natToStr`, structurally recursive on a fuel argument so
that it evaluates inside the kernel. -/
def natToStrAux : Nat → Nat → Str
  | 0, _ => []
  | fuel + 1, n =>
    if n < 10 then [Char.ofNat (48 + n)]
    else natToStrAux fuel (n / 10) ++ [Char.ofNat (48 + n % 10)]

/-- Decimal rendering of a natural number (Python `f"{n}"`). -/
def natToStr (n : Nat) : Str := natToStrAux (n + 1) n

/-- Association-list lookup, modelling Python `dict.get` on a dictionary
represented as its insertion-ordered entry list (with distinct keys). -/
def lookupAssoc (m : List (Str × α)) (k : Str) : Option α :=
  (m.find? (fun p => p.1 == k)).map (·.2)

-- Basic lemmas about the string utilities.

theorem isPre_append (p s t : Str) (h : isPre p s = true) : isPre p (s ++ t) = true := by
  induction p generalizing s with
  | nil => simp [isPre]
  | cons a ps ih =>
    cases s with
    | nil => simp [isPre] at h
    | cons b ss =>
      simp only [isPre, Bool.and_eq_true, beq_iff_eq] at h ⊢
      exact ⟨h.1, ih ss h.2⟩

theorem isPre_trans (a b c : Str) (hab : isPre a b = true) (hbc : isPre b c = true) :
    isPre a c = true := by
  induction a generalizing b c with
  | nil => simp [isPre]
  | cons x xs ih =>
    cases b with
    | nil => simp [isPre] at hab
    | cons y ys =>
      cases c with
      | nil => simp [isPre] at hbc
      | cons z zs =>
        simp only [isPre, Bool.and_eq_true, beq_iff_eq] at hab hbc ⊢
        exact ⟨hab.1.trans hbc.1, ih ys zs hab.2 hbc.2⟩

theorem containsSub_of_isPre (pat s : Str) (h : isPre pat s = true) :
    containsSub pat s = true := by
  cases s with
  | nil => simpa [containsSub] using h
  | cons c ss => simp [containsSub, h]

theorem containsSub_cons (pat : Str) (x : Char) (s : Str)
    (h : containsSub pat s = true) : containsSub pat (x :: s) = true := by
  simp [containsSub, h]

theorem isPre_mem (p s : Str) (h : isPre p s = true) : ∀ c ∈ p, c ∈ s := by
  induction p generalizing s with
  | nil => simp
  | cons a ps ih =>
    cases s with
    | nil => simp [isPre] at h
    | cons b ss =>
      simp only [isPre, Bool.and_eq_true, beq_iff_eq] at h
      intro c hc
      rcases List.mem_cons.mp hc with rfl | hc
      · simp [h.1]
      · exact List.mem_cons_of_mem _ (ih ss h.2 c hc)

theorem splitOnChar_ne_nil (c : Char) (s : Str) : splitOnChar c s ≠ [] := by
  cases s with
  | nil => simp [splitOnChar]
  | cons x xs =>
    simp only [splitOnChar]
    split
    · simp
    · cases h : splitOnChar c xs <;> simp [consHead]

theorem splitOnChar_head_isPre (c : Char) (s : Str) (p : Str) (ps : List Str)
    (h : splitOnChar c s = p :: ps) : isPre p s = true := by
  induction s generalizing p ps with
  | nil =>
    simp [splitOnChar] at h
    simp [h.1, isPre]
  | cons x xs ih =>
    simp only [splitOnChar] at h
    split at h
    · cases h
      simp [isPre]
    · cases hsp : splitOnChar c xs with
      | nil => exact absurd hsp (splitOnChar_ne_nil c xs)
      | cons q qs =>
        rw [hsp] at h
        simp only [consHead] at h
        injection h with h1 h2
        subst h1
        simp only [isPre, beq_self_eq_true, Bool.true_and]
        exact ih q qs hsp

theorem containsSub_of_mem_split (c : Char) (pat : Str) :
    ∀ (s : Str) (part : Str), part ∈ splitOnChar c s → isPre pat part = true →
      containsSub pat s = true := by
  intro s
  induction s with
  | nil =>
    intro part hmem hpre
    simp [splitOnChar] at hmem
    subst hmem
    simpa [containsSub] using hpre
  | cons x xs ih =>
    intro part hmem hpre
    simp only [splitOnChar] at hmem
    split at hmem
    · rcases List.mem_cons.mp hmem with rfl | hmem
      · cases pat with
        | nil => simp [containsSub, isPre]
        | cons a ps => simp [isPre] at hpre
      · exact containsSub_cons _ _ _ (ih part hmem hpre)
    · cases hsp : splitOnChar c xs with
      | nil => exact absurd hsp (splitOnChar_ne_nil c xs)
      | cons q qs =>
        rw [hsp] at hmem
        simp only [consHead] at hmem
        rcases List.mem_cons.mp hmem with h1 | h2
        · subst h1
          have hq : isPre q xs = true := splitOnChar_head_isPre c xs q qs hsp
          have hxq : isPre (x :: q) (x :: xs) = true := by
            simp [isPre, hq]
          exact containsSub_of_isPre _ _ (isPre_trans _ _ _ hpre hxq)
        · refine containsSub_cons _ _ _ (ih part ?_ hpre)
          rw [hsp]
          exact List.mem_cons_of_mem q h2

theorem length_insertLe (le : α → α → Bool) (x : α) (l : List α) :
    (insertLe le x l).length = l.length + 1 := by
  induction l with
  | nil => simp [insertLe]
  | cons y ys ih =>
    simp only [insertLe]
    split <;> simp [ih]

theorem length_sortLe (le : α → α → Bool) (l : List α) :
    (sortLe le l).length = l.length := by
  suffices h : ∀ acc : List α,
      (l.foldl (fun acc x => insertLe le x acc) acc).length = acc.length + l.length by
    simpa using h []
  induction l with
  | nil => simp
  | cons x xs ih =>
    intro acc
    simp only [List.foldl_cons]
    rw [ih (insertLe le x acc), length_insertLe]
    simp only [List.length_cons]
    omega

/-!
## PathNormalizer (`fix_spots_mapping_v2.py`, `get_spot_folder_from_path`
and `get_image_filename_from_path`)
-/

/-- `path_str.replace('\\', '/')` (source line 22). -/
def normalizeSlashes (s : Str) : Str :=
  s.map (fun c => if c = '\\' then '/' else c)

/-- The recognized prefixes, in the order the source tries them
(source line 23). -/
def recognizedPrefixes : List Str :=
  [chars "images/", chars "scraped_data/images/", chars "images\\", chars "scraped_data\\images\\"]

/-- The prefix-stripping loop (source lines 24-27): the first prefix of
the list that matches is stripped, then the loop breaks. -/
def stripFirst (s : Str) : Str :=
  match recognizedPrefixes.find? (fun p => isPre p s) with
  | some p => s.drop p.length
  | none => s

/-- `get_spot_folder_from_path` (source lines 20-33): normalize
separators, strip one recognized prefix, and if `'spot_'` occurs in the
remainder return the first `/`-separated segment starting with `spot_`. -/
def get_spot_folder_from_path (p : Str) : Option Str :=
  let path := stripFirst (normalizeSlashes p)
  if containsSub (chars "spot_") path then
    (splitOnChar '/' path).find? (fun part => isPre (chars "spot_") part)
  else none

/-- `Path(path_str).name` (source line 37): the last path component.
`pathlib` drops empty components and `'.'` components, so the name is the
last segment that is neither empty nor `'.'` after splitting on path
separators (both `/` and `\`, matching the Windows-style paths the
repository's data declares). -/
def pyName (s : Str) : Str :=
  (((splitOnSeps ['/', '\\'] s).filter
      (fun seg => decide (seg ≠ [] ∧ seg ≠ ['.'])))).getLastD []

/-- `get_image_filename_from_path` (source lines 35-37). -/
def get_image_filename_from_path (p : Str) : Str := pyName p

/-- Modelled from the spec's words for claim comparison: pick the longest
recognized prefix that matches. -/
def longestMatching (ps : List Str) (s : Str) : Option Str :=
  ps.foldl
    (fun best p =>
      if isPre p s then
        match best with
        | none => some p
        | some b => if b.length < p.length then some p else some b
      else best)
    none

/-- Modelled from the spec's words: strip the longest matching recognized
prefix (at most one). -/
def specStrip (s : Str) : Str :=
  match longestMatching recognizedPrefixes s with
  | some p => s.drop p.length
  | none => s

/-- Modelled from the spec's words (amended): normalize separators, strip
the longest recognized prefix, split on the normalized separator, and
return the first segment starting with `spot_` together with the final
path component of the original string. -/
def specNormalizePair (p : Str) : Option Str × Str :=
  let path := specStrip (normalizeSlashes p)
  ((splitOnChar '/' path).find? (fun part => isPre (chars "spot_") part), pyName p)

/-- The claim's literal `spot_<N>` token pattern: the literal `spot_`
followed by a non-empty run of digits. Used only to compare the claim's
wording against the code. -/
def spotTokenNum (part : Str) : Bool :=
  isPre (chars "spot_") part && decide (part.drop 5 ≠ []) && (part.drop 5).all Char.isDigit

/-!
## Data model

`LocationRecord` mirrors an entry of `enriched_spots.json` as the scripts
read it: every field is accessed through `.get` with a default, so every
field is optional; an image is represented by its declared `local_path`
(a missing `local_path` is the empty string, exactly what
`img.get('local_path', '')` yields).
-/

structure LocationRecord where
  latitude : Option ℚ
  longitude : Option ℚ
  description : Option Str
  place_name : Option Str
  category : Option Str
  address : Option Str
  rating : Option ℚ
  images : List Str
  deriving DecidableEq

/-- A canonical output record (`spots-simple.json` entry). -/
structure Spot where
  id : Nat
  name : Str
  lat : ℚ
  lng : ℚ
  description : Str
  category : Str
  images : List Str
  rating : Option ℚ
  address : Str
  notes : Str
  deriving DecidableEq

/-!
## EvidenceIndex (`fix_spots_mapping_v2.py` lines 59-70)
-/

/-- `image_to_location[key] = loc_idx`: functional update of the mapping,
so a later insertion of the same key overwrites the earlier one. -/
def insertKey (d : Str → Option Nat) (k : Str) (v : Nat) : Str → Option Nat :=
  fun q => if q = k then some v else d q

/-- The key a declared image contributes (source line 69):
`f"{spot_folder}/{filename}"` when a spot folder is found, else the bare
filename. -/
def imageKeyOfPath (p : Str) : Str :=
  match get_spot_folder_from_path p with
  | some sf => sf ++ '/' :: get_image_filename_from_path p
  | none => get_image_filename_from_path p

/-- One location's contribution to the index (source lines 63-70): each
image with a non-empty `local_path` inserts its key. -/
def insertImagesOf (i : Nat) (imgs : List Str) (d : Str → Option Nat) : Str → Option Nat :=
  imgs.foldl (fun d' p => if p = [] then d' else insertKey d' (imageKeyOfPath p) i) d

/-- Worker for `buildImageToLocation`, recursing over the enumerated
records. -/
def buildImageToLocationAux (i : Nat) (d : Str → Option Nat) :
    List LocationRecord → (Str → Option Nat)
  | [] => d
  | r :: rs => buildImageToLocationAux (i + 1) (insertImagesOf i r.images d) rs

/-- The `image_to_location` dictionary (source lines 59-70). -/
def buildImageToLocation (recs : List LocationRecord) : Str → Option Nat :=
  buildImageToLocationAux 0 (fun _ => none) recs

/-- Modelled from the spec's words: the image key is
`"<spotFolder>/<filename>"` when a spot folder is resolvable from the
declared path, else the bare filename. -/
def specImageKey (p : Str) : Str :=
  match get_spot_folder_from_path p with
  | some sf => sf ++ chars "/" ++ get_image_filename_from_path p
  | none => get_image_filename_from_path p

/-- Modelled from the spec's words: the `(imageKey, locationIndex)` pairs
one record's declared images contribute, in order; an image with an
empty declared path contributes nothing. -/
def imagePairs (i : Nat) (imgs : List Str) : List (Str × Nat) :=
  imgs.filterMap (fun p => if p = [] then none else some (specImageKey p, i))

/-- Modelled from the spec's words: the `(imageKey, locationIndex)` pairs
every declared image contributes, in iteration order, starting at record
index `i`. -/
def declaredPairsFrom (i : Nat) : List LocationRecord → List (Str × Nat)
  | [] => []
  | r :: rs => imagePairs i r.images ++ declaredPairsFrom (i + 1) rs

/-- Modelled from the spec's words: all declared `(imageKey, locationIndex)`
pairs in iteration order. -/
def declaredPairs (recs : List LocationRecord) : List (Str × Nat) :=
  declaredPairsFrom 0 recs

/-- Modelled from the spec's words ("the later record in iteration order
wins"): the value of the last pair carrying key `k`, if any. -/
def lastMatch (k : Str) : List (Str × Nat) → Option Nat
  | [] => none
  | q :: qs =>
    match lastMatch k qs with
    | some v => some v
    | none => if q.1 = k then some q.2 else none

-- PathNormalizer lemmas.

theorem backslash_not_mem_normalize (p : Str) : '\\' ∉ normalizeSlashes p := by
  intro h
  rcases List.mem_map.mp h with ⟨a, _, ha⟩
  by_cases hab : a = '\\' <;> simp [hab] at ha

theorem isPre_false_of_mem_not_mem (p s : Str) (c : Char) (hc : c ∈ p) (hs : c ∉ s) :
    isPre p s = false := by
  cases h : isPre p s
  · rfl
  · exact absurd (isPre_mem p s h c hc) hs

theorem not_both_first_prefixes (s : Str)
    (h1 : isPre (chars "images/") s = true)
    (h2 : isPre (chars "scraped_data/images/") s = true) : False := by
  cases s with
  | nil => simp [chars, isPre] at h1
  | cons b ss =>
    have e1 : 'i' = b := by
      have := isPre_trans ['i'] (chars "images/") (b :: ss) (by decide) h1
      simpa [isPre] using this
    have e2 : 's' = b := by
      have := isPre_trans ['s'] (chars "scraped_data/images/") (b :: ss) (by decide) h2
      simpa [isPre] using this
    rw [← e1] at e2
    exact absurd e2 (by decide)

theorem stripFirst_eq_specStrip (s : Str) (hs : '\\' ∉ s) : stripFirst s = specStrip s := by
  have h2 : isPre (chars "images\\") s = false :=
    isPre_false_of_mem_not_mem _ _ '\\' (by decide) hs
  have h3 : isPre (chars "scraped_data\\images\\") s = false :=
    isPre_false_of_mem_not_mem _ _ '\\' (by decide) hs
  unfold stripFirst specStrip longestMatching recognizedPrefixes
  simp only [List.find?, List.foldl]
  cases h0 : isPre (chars "images/") s with
  | false =>
    simp only [h0, h2, h3, Bool.false_eq_true, if_false]
    cases h1 : isPre (chars "scraped_data/images/") s <;> simp [h1]
  | true =>
    cases h1 : isPre (chars "scraped_data/images/") s with
    | false => simp [h0, h1, h2, h3]
    | true => exact (not_both_first_prefixes s h0 h1).elim

/-- C9 (amended): on every input, `get_spot_folder_from_path` paired with
`get_image_filename_from_path` equals the spec-side normalizer that
strips the longest matching recognized prefix (at most one, on the
separator-normalized string), splits the remainder on `/`, returns the
first segment starting with the literal `spot_` (`None` when no segment
starts with `spot_`), and returns the last path component as the
filename.  The functions are plain functions of their input (pure), and
an unrecognized prefix is left in place rather than raising. -/
theorem path_normalizer_spec (p : Str) :
    (get_spot_folder_from_path p, get_image_filename_from_path p) = specNormalizePair p := by
  unfold get_spot_folder_from_path specNormalizePair get_image_filename_from_path
  rw [stripFirst_eq_specStrip (normalizeSlashes p) (backslash_not_mem_normalize p)]
  set path := specStrip (normalizeSlashes p) with hpath
  cases hfind : (splitOnChar '/' path).find? (fun part => isPre (chars "spot_") part) with
  | none => simp [hfind]
  | some part =>
    have hmem := List.mem_of_find?_eq_some hfind
    have hpre := List.find?_some hfind
    have hcs : containsSub (chars "spot_") path = true :=
      containsSub_of_mem_split '/' (chars "spot_") path part hmem hpre
    simp [hcs, hfind]

/-- C9 counterexample: on `"spot_x/a.jpg"` the source returns the folder
`spot_x` although no segment of the path matches the literal
`spot_<N>` token pattern (`spot_` followed by a number), so the claim as
stated — that the first segment matching the `spot_<N>` token pattern is
returned, and `None` when no segment matches — is false. -/
theorem path_normalizer_counterexample :
    get_spot_folder_from_path (chars "spot_x/a.jpg") = some (chars "spot_x") ∧
      (splitOnChar '/' (stripFirst (normalizeSlashes (chars "spot_x/a.jpg")))).all
        (fun seg => !spotTokenNum seg) = true := by
  constructor
  · decide
  · decide

-- EvidenceIndex lemmas.

theorem specImageKey_eq (p : Str) : imageKeyOfPath p = specImageKey p := by
  unfold imageKeyOfPath specImageKey
  cases get_spot_folder_from_path p <;> simp [chars]

theorem lastMatch_append (k : Str) (a b : List (Str × Nat)) :
    lastMatch k (a ++ b) =
      match lastMatch k b with
      | some v => some v
      | none => lastMatch k a := by
  induction a with
  | nil =>
    simp only [List.nil_append]
    cases h : lastMatch k b <;> simp [lastMatch, h]
  | cons q qs ih =>
    simp only [List.cons_append, lastMatch, List.append_eq]
    rw [ih]
    cases h : lastMatch k b <;> cases h2 : lastMatch k qs <;> simp

theorem insertImagesOf_lookup (imgs : List Str) :
    ∀ (i : Nat) (d : Str → Option Nat) (k : Str),
      insertImagesOf i imgs d k =
        match lastMatch k (imagePairs i imgs) with
        | some v => some v
        | none => d k := by
  induction imgs with
  | nil => intro i d k; simp [insertImagesOf, imagePairs, lastMatch]
  | cons p ps ih =>
    intro i d k
    by_cases hp : p = []
    · have h1 : insertImagesOf i (p :: ps) d = insertImagesOf i ps d := by
        simp [insertImagesOf, hp]
      have h2 : imagePairs i (p :: ps) = imagePairs i ps := by
        simp [imagePairs, hp]
      rw [h1, h2, ih]
    · have h1 : insertImagesOf i (p :: ps) d =
          insertImagesOf i ps (insertKey d (imageKeyOfPath p) i) := by
        simp [insertImagesOf, hp]
      have h2 : imagePairs i (p :: ps) = (specImageKey p, i) :: imagePairs i ps := by
        simp [imagePairs, hp]
      rw [h1, h2, ih]
      simp only [lastMatch]
      cases lastMatch k (imagePairs i ps) with
      | some v => simp
      | none =>
        simp only [insertKey, specImageKey_eq]
        by_cases hk : specImageKey p = k
        · simp [hk]
        · have hk2 : ¬(k = specImageKey p) := fun h => hk h.symm
          simp [hk, hk2]

theorem buildImageToLocationAux_lookup (rs : List LocationRecord) :
    ∀ (i : Nat) (d : Str → Option Nat) (k : Str),
      buildImageToLocationAux i d rs k =
        match lastMatch k (declaredPairsFrom i rs) with
        | some v => some v
        | none => d k := by
  induction rs with
  | nil => intro i d k; simp [buildImageToLocationAux, declaredPairsFrom, lastMatch]
  | cons r rest ih =>
    intro i d k
    simp only [buildImageToLocationAux, declaredPairsFrom]
    rw [ih, lastMatch_append, insertImagesOf_lookup]
    cases lastMatch k (declaredPairsFrom (i + 1) rest) <;>
      cases lastMatch k (imagePairs i r.images) <;> simp

/-- C7: for every ordered record list and every key, the EvidenceIndex's
entry equals the location index of the *last* declared image (in
iteration order over records, then over each record's images) whose key
— `"<spotFolder>/<filename>"` when a spot folder is resolvable from the
declared path, the bare filename otherwise — is that key; keys never
declared (including by images with an empty declared path, which are
skipped) are absent. -/
theorem evidence_index_later_wins (recs : List LocationRecord) (k : Str) :
    buildImageToLocation recs k = lastMatch k (declaredPairs recs) := by
  unfold buildImageToLocation declaredPairs
  rw [buildImageToLocationAux_lookup]
  cases lastMatch k (declaredPairsFrom 0 recs) <;> simp

/-!
## VotingReconciler (`fix_spots_mapping_v2.py` lines 75-104)

The nested `defaultdict` of votes is keyed per folder, so it is embedded
per folder: `votesFor` is one folder's insertion-ordered counter list
(`spot_to_location_votes[spot_folder]`), and the resolved mapping is
built folder-by-folder in inventory order (the iteration order of
`spot_to_location_votes.items()` is the order folders received their
first vote, which follows the `existing_images` iteration order since
each folder's votes are accumulated contiguously).
-/

/-- `spot_to_location_votes[spot_folder][loc_idx] += 1` on an
insertion-ordered counter list (Python dicts preserve insertion order). -/
def bumpVote (votes : List (Nat × Nat)) (li : Nat) : List (Nat × Nat) :=
  match votes with
  | [] => [(li, 1)]
  | (l, c) :: rest => if l = li then (l, c + 1) :: rest else (l, c) :: bumpVote rest li

/-- One folder's vote tally (source lines 90-95): for each file on disk,
look up `f"{spot_folder}/{img_file}"` in the image index and count a
vote for the location found, if any. -/
def votesFor (index : Str → Option Nat) (folder : Str) (files : List Str) :
    List (Nat × Nat) :=
  files.foldl
    (fun acc f =>
      match index (folder ++ '/' :: f) with
      | some li => bumpVote acc li
      | none => acc)
    []

/-- Python `max(votes.items(), key=lambda x: x[1])`: the running best is
replaced only by a strictly greater count, so the first maximal entry in
insertion order wins. -/
def pickMax (h : Nat × Nat) (t : List (Nat × Nat)) : Nat × Nat :=
  t.foldl (fun b x => if b.2 < x.2 then x else b) h

/-- Modelled per-folder assignment (source lines 99-102): the folder is
assigned the first vote entry attaining the maximal count, or left
unresolved when it has no votes. -/
def assignFolder (index : Str → Option Nat) (folder : Str) (files : List Str) :
    Option Nat :=
  match votesFor index folder files with
  | [] => none
  | h :: t => some (pickMax h t).1

/-- `spot_to_location` (source lines 98-102): every folder with at least
one vote is assigned its winning location, folder by folder, with no
check against earlier folders' assignments. -/
def build_spot_to_location (index : Str → Option Nat)
    (inventory : List (Str × List Str)) : List (Str × Nat) :=
  inventory.foldl
    (fun acc e =>
      match votesFor index e.1 e.2 with
      | [] => acc
      | h :: t => acc ++ [(e.1, (pickMax h t).1)])
    []

-- Voting lemmas.

theorem lookupAssoc_append (a b : List (Str × α)) (k : Str) :
    lookupAssoc (a ++ b) k =
      match lookupAssoc a k with
      | some v => some v
      | none => lookupAssoc b k := by
  induction a with
  | nil => simp [lookupAssoc]
  | cons q qs ih =>
    by_cases hq : q.1 = k
    · simp [lookupAssoc, List.find?, hq]
    · have hq' : (q.1 == k) = false := beq_eq_false_iff_ne.mpr hq
      simp only [List.cons_append, lookupAssoc, List.find?, hq'] at ih ⊢
      exact ih

theorem pickMax_mem (t : List (Nat × Nat)) : ∀ h, pickMax h t ∈ h :: t := by
  induction t with
  | nil => intro h; simp [pickMax]
  | cons x xs ih =>
    intro h
    have step : pickMax h (x :: xs) = pickMax (if h.2 < x.2 then x else h) xs := by
      simp [pickMax]
    rw [step]
    have := ih (if h.2 < x.2 then x else h)
    rcases List.mem_cons.mp this with heq | hmem
    · rw [heq]
      split <;> simp
    · simp [List.mem_cons_of_mem, hmem]

theorem pickMax_max (t : List (Nat × Nat)) :
    ∀ h, ∀ x ∈ h :: t, x.2 ≤ (pickMax h t).2 := by
  induction t with
  | nil => intro h x hx; simp at hx; simp [pickMax, hx]
  | cons y ys ih =>
    intro h x hx
    have step : pickMax h (y :: ys) = pickMax (if h.2 < y.2 then y else h) ys := by
      simp [pickMax]
    rw [step]
    have hb : h.2 ≤ (if h.2 < y.2 then y else h).2 := by
      split <;> omega
    have hy : y.2 ≤ (if h.2 < y.2 then y else h).2 := by
      split <;> omega
    have hhead := ih (if h.2 < y.2 then y else h) _ (List.mem_cons_self _ _)
    rcases List.mem_cons.mp hx with rfl | hx2
    · omega
    · rcases List.mem_cons.mp hx2 with rfl | hx3
      · omega
      · exact ih (if h.2 < y.2 then y else h) x (List.mem_cons_of_mem _ hx3)

theorem pickMax_first (t : List (Nat × Nat)) :
    ∀ h, ∃ l1 l2, h :: t = l1 ++ pickMax h t :: l2 ∧
      ∀ y ∈ l1, y.2 < (pickMax h t).2 := by
  induction t with
  | nil =>
    intro h
    exact ⟨[], [], by simp [pickMax], by simp⟩
  | cons x xs ih =>
    intro h
    have step : pickMax h (x :: xs) = pickMax (if h.2 < x.2 then x else h) xs := by
      simp [pickMax]
    by_cases hlt : h.2 < x.2
    · rcases ih x with ⟨l1, l2, hdec, hless⟩
      have hx : pickMax h (x :: xs) = pickMax x xs := by
        rw [step, if_pos hlt]
      refine ⟨h :: l1, l2, ?_, ?_⟩
      · rw [hx, List.cons_append, ← hdec]
      · intro y hy
        rcases List.mem_cons.mp hy with rfl | hy2
        · have := pickMax_max xs x x (List.mem_cons_self _ _)
          rw [hx]
          omega
        · rw [hx]
          exact hless y hy2
    · have hx : pickMax h (x :: xs) = pickMax h xs := by
        rw [step, if_neg hlt]
      rcases ih h with ⟨l1, l2, hdec, hless⟩
      cases l1 with
      | nil =>
        simp only [List.nil_append] at hdec
        injection hdec with hh ht
        refine ⟨[], x :: xs, ?_, by simp⟩
        rw [hx, ← hh]
        simp
      | cons a l1' =>
        injection hdec with hh ht
        refine ⟨h :: x :: l1', l2, ?_, ?_⟩
        · rw [hx]
          simp only [List.cons_append]
          rw [List.append_eq] at ht
          rw [← ht]
        · intro y hy
          have hhlt : h.2 < (pickMax h xs).2 := by
            have := hless a (List.mem_cons_self _ _)
            rw [← hh] at this
            exact this
          rcases List.mem_cons.mp hy with rfl | hy2
          · rw [hx]; exact hhlt
          · rcases List.mem_cons.mp hy2 with rfl | hy3
            · rw [hx]; omega
            · rw [hx]
              exact hless y (List.mem_cons_of_mem _ hy3)

theorem lookup_build_unprocessed (index : Str → Option Nat) :
    ∀ (inv : List (Str × List Str)) (acc : List (Str × Nat)) (f : Str),
      f ∉ inv.map Prod.fst →
      lookupAssoc
        (inv.foldl
          (fun acc e =>
            match votesFor index e.1 e.2 with
            | [] => acc
            | h :: t => acc ++ [(e.1, (pickMax h t).1)])
          acc) f = lookupAssoc acc f := by
  intro inv
  induction inv with
  | nil => intro acc f _; rfl
  | cons e rest ih =>
    intro acc f hf
    simp only [List.map_cons, List.mem_cons, not_or] at hf
    simp only [List.foldl_cons]
    rw [ih _ f (by simpa using hf.2)]
    cases hv : votesFor index e.1 e.2 with
    | nil => rfl
    | cons h t =>
      rw [lookupAssoc_append]
      have : lookupAssoc [(e.1, (pickMax h t).1)] f = none := by
        have : (e.1 == f) = false := beq_eq_false_iff_ne.mpr (fun hh => hf.1 hh.symm)
        simp [lookupAssoc, List.find?, this]
      rw [this]
      cases lookupAssoc acc f <;> simp

theorem lookup_build_eq_assign (index : Str → Option Nat) :
    ∀ (inv : List (Str × List Str)) (acc : List (Str × Nat)) (f : Str) (fs : List Str),
      (inv.map Prod.fst).Nodup → (f, fs) ∈ inv → lookupAssoc acc f = none →
      lookupAssoc
        (inv.foldl
          (fun acc e =>
            match votesFor index e.1 e.2 with
            | [] => acc
            | h :: t => acc ++ [(e.1, (pickMax h t).1)])
          acc) f = assignFolder index f fs := by
  intro inv
  induction inv with
  | nil => intro acc f fs _ hmem _; simp at hmem
  | cons e rest ih =>
    intro acc f fs hnd hmem hacc
    simp only [List.map_cons, List.nodup_cons] at hnd
    simp only [List.foldl_cons]
    rcases List.mem_cons.mp hmem with heq | hrest
    · have he1 : e.1 = f := by rw [← heq]
      have he2 : e.2 = fs := by rw [← heq]
      have hnot : f ∉ rest.map Prod.fst := he1 ▸ hnd.1
      rw [lookup_build_unprocessed index rest _ f hnot]
      rw [he1, he2]
      unfold assignFolder
      cases hv : votesFor index f fs with
      | nil => exact hacc
      | cons h t =>
        rw [lookupAssoc_append, hacc]
        simp [lookupAssoc, List.find?]
    · have hf_mem : f ∈ rest.map Prod.fst :=
        List.mem_map.mpr ⟨(f, fs), hrest, rfl⟩
      have hne : e.1 ≠ f := fun hh => hnd.1 (hh ▸ hf_mem)
      refine ih _ f fs hnd.2 hrest ?_
      cases hv : votesFor index e.1 e.2 with
      | nil => exact hacc
      | cons h t =>
        rw [lookupAssoc_append, hacc]
        have : (e.1 == f) = false := beq_eq_false_iff_ne.mpr hne
        simp [lookupAssoc, List.find?, this]

/-- C1 (amended): the vote pass assigns every folder with at least one
matching vote its winning location *independently* of all other folders'
assignments — the resolved entry of a folder is a function of that
folder's own votes alone, folders are processed in inventory (disk
enumeration) order, and no already-claimed locationIndex is ever
withheld from a later folder.  Consequently the resolved mapping need
not be injective (see the counterexample). -/
theorem voting_assignment_independent (index : Str → Option Nat)
    (inventory : List (Str × List Str)) (hnd : (inventory.map Prod.fst).Nodup)
    (f : Str) (fs : List Str) (hmem : (f, fs) ∈ inventory) :
    lookupAssoc (build_spot_to_location index inventory) f = assignFolder index f fs :=
  lookup_build_eq_assign index inventory [] f fs hnd hmem rfl

/-- Witness for `voting_assignment_independent` at a concrete input. -/
theorem voting_assignment_independent_witness :
    lookupAssoc
        (build_spot_to_location
          (fun k => if k = chars "spot_a/x.jpg" then some 5 else none)
          [(chars "spot_a", [chars "x.jpg"])])
        (chars "spot_a") =
      assignFolder (fun k => if k = chars "spot_a/x.jpg" then some 5 else none)
        (chars "spot_a") [chars "x.jpg"] :=
  voting_assignment_independent
    (fun k => if k = chars "spot_a/x.jpg" then some 5 else none)
    [(chars "spot_a", [chars "x.jpg"])] (by decide)
    (chars "spot_a") [chars "x.jpg"] (by decide)

/-- The image index of the C1 counterexample: one image of folder
`spot_a` and one image of folder `spot_b` both belong to location 5. -/
def conflictIndex : Str → Option Nat := fun k =>
  if k = chars "spot_a/x.jpg" then some 5
  else if k = chars "spot_b/y.jpg" then some 5
  else none

/-- C1 counterexample: with `conflictIndex`, folders `spot_a` and
`spot_b` are *both* assigned locationIndex 5 — the resolved mapping is
not injective, and the earlier folder's claim does not block the later
folder, refuting the claim as stated. -/
theorem voting_injectivity_counterexample :
    lookupAssoc
        (build_spot_to_location conflictIndex
          [(chars "spot_a", [chars "x.jpg"]), (chars "spot_b", [chars "y.jpg"])])
        (chars "spot_a") = some 5 ∧
      lookupAssoc
        (build_spot_to_location conflictIndex
          [(chars "spot_a", [chars "x.jpg"]), (chars "spot_b", [chars "y.jpg"])])
        (chars "spot_b") = some 5 ∧
      chars "spot_a" ≠ chars "spot_b" :=
  ⟨by decide, by decide, by decide⟩

/-- C2 (amended): a folder with at least one matching vote is assigned a
locationIndex whose vote count is maximal among that folder's votes;
when several locations tie on the maximal count, the location whose
*first vote came earliest* in the folder's file-processing order is
chosen (Python `max` keeps the first maximal item of the
insertion-ordered counter dict) — not the lower locationIndex; a folder
whose files match no index entry is left unresolved. -/
theorem voting_plurality_tiebreak (index : Str → Option Nat)
    (inventory : List (Str × List Str)) (hnd : (inventory.map Prod.fst).Nodup)
    (f : Str) (fs : List Str) (hmem : (f, fs) ∈ inventory) :
    (votesFor index f fs = [] →
      lookupAssoc (build_spot_to_location index inventory) f = none) ∧
    ∀ h t, votesFor index f fs = h :: t →
      lookupAssoc (build_spot_to_location index inventory) f = some (pickMax h t).1 ∧
      (∀ x ∈ h :: t, x.2 ≤ (pickMax h t).2) ∧
      ∃ l1 l2, h :: t = l1 ++ pickMax h t :: l2 ∧
        ∀ y ∈ l1, y.2 < (pickMax h t).2 := by
  have hb : lookupAssoc (build_spot_to_location index inventory) f =
      assignFolder index f fs :=
    lookup_build_eq_assign index inventory [] f fs hnd hmem rfl
  constructor
  · intro hv
    rw [hb]
    unfold assignFolder
    rw [hv]
  · intro h t hv
    refine ⟨?_, pickMax_max t h, pickMax_first t h⟩
    rw [hb]
    unfold assignFolder
    rw [hv]

/-- The image index of the C2 scenario: both files of `spot_3` belong to
location 7. -/
def scenarioIndex : Str → Option Nat := fun k =>
  if k = chars "spot_3/a.jpg" then some 7
  else if k = chars "spot_3/b.jpg" then some 7
  else none

/-- Witness for `voting_plurality_tiebreak`, instantiating the spec's
scenario: folder `spot_3` with files `a.jpg`, `b.jpg` both mapped to
location 7 resolves to location 7. -/
theorem voting_plurality_tiebreak_witness :
    lookupAssoc
        (build_spot_to_location scenarioIndex
          [(chars "spot_3", [chars "a.jpg", chars "b.jpg"])])
        (chars "spot_3") = some 7 := by
  have H := voting_plurality_tiebreak scenarioIndex
    [(chars "spot_3", [chars "a.jpg", chars "b.jpg"])] (by decide)
    (chars "spot_3") [chars "a.jpg", chars "b.jpg"] (by decide)
  have hv : votesFor scenarioIndex (chars "spot_3") [chars "a.jpg", chars "b.jpg"]
      = [(7, 2)] := by decide
  exact (H.2 (7, 2) [] hv).1

/-- The image index of the C2 counterexample: the two files of `spot_0`
belong to locations 7 and 3 respectively — a tie at one vote each. -/
def tieIndex : Str → Option Nat := fun k =>
  if k = chars "spot_0/a.jpg" then some 7
  else if k = chars "spot_0/b.jpg" then some 3
  else none

/-- C2 counterexample: locations 7 and 3 tie at one vote each for folder
`spot_0`, and the code assigns location 7 (first vote seen), not the
lower locationIndex 3, refuting the claim's tie-breaking rule. -/
theorem voting_tiebreak_counterexample :
    votesFor tieIndex (chars "spot_0") [chars "a.jpg", chars "b.jpg"]
        = [(7, 1), (3, 1)] ∧
      lookupAssoc
        (build_spot_to_location tieIndex
          [(chars "spot_0", [chars "a.jpg", chars "b.jpg"])])
        (chars "spot_0") = some 7 ∧
      (3 : Nat) < 7 :=
  ⟨by decide, by decide, by decide⟩

/-!
## Positional fallback (`fix_spots_mapping.py` lines 141-162)
-/

/-- `int(spot_folder.replace('spot_', ''))` (source line 146), for the
non-negative case: Python `replace` removes every occurrence of
`spot_`, and the result parses when what remains is a non-empty digit
string.  Signed or otherwise exotic integer literals — which never occur
in on-disk folder names — are not modelled and fall into the
`ValueError` branch. -/
def parseSpotIdx (name : Str) : Option Nat :=
  let t := removeAll (chars "spot_") name
  if t ≠ [] ∧ t.all Char.isDigit then some (digitsToNat t) else none

/-- `location_spots` (source lines 155-156): the spot folders parsed
from the location's declared images that have a non-empty path; an
unparsable path contributes `none` to the set. -/
def locSpotsOf (loc : LocationRecord) : List (Option Str) :=
  (loc.images.filter (fun p => !p.isEmpty)).map get_spot_folder_from_path

/-- The fallback test applied to one still-unresolved folder (source
lines 144-160): the folder's embedded index must parse, denote an
in-range location, not already be claimed, and the location's declared
image folders must be empty or contain this folder. -/
def fallbackEligible (enriched : List LocationRecord) (used : List Nat)
    (folder : Str) : Option Nat :=
  match parseSpotIdx folder with
  | none => none
  | some idx =>
    if idx < enriched.length ∧ idx ∉ used then
      match enriched.get? idx with
      | none => none
      | some loc =>
        if locSpotsOf loc = [] ∨ some folder ∈ locSpotsOf loc then some idx else none
    else none

/-- The mutable state of the fallback loop: the mapping under
construction (`spot_to_location`) and the claimed location set
(`mapped_locations`). -/
structure FallbackState where
  mapping : List (Str × Nat)
  used : List Nat

/-- One iteration of the fallback loop (source lines 142-160). -/
def fallbackStep (enriched : List LocationRecord) (st : FallbackState)
    (entry : Str × List Str) : FallbackState :=
  if (lookupAssoc st.mapping entry.1).isSome then st
  else
    match fallbackEligible enriched st.used entry.1 with
    | some idx => ⟨st.mapping ++ [(entry.1, idx)], idx :: st.used⟩
    | none => st

/-- The whole fallback pass: starting from the vote pass's mapping
(`initial`) and its claimed locations, process every folder of the
inventory in order. -/
def fallbackPass (enriched : List LocationRecord)
    (inventory : List (Str × List Str)) (initial : List (Str × Nat)) :
    List (Str × Nat) :=
  (inventory.foldl (fallbackStep enriched) ⟨initial, initial.map (·.2)⟩).mapping

-- Fallback lemmas.

theorem fallback_lookup_unprocessed (enriched : List LocationRecord) :
    ∀ (l : List (Str × List Str)) (st : FallbackState) (f : Str),
      f ∉ l.map Prod.fst →
      lookupAssoc (l.foldl (fallbackStep enriched) st).mapping f =
        lookupAssoc st.mapping f := by
  intro l
  induction l with
  | nil => intro st f _; rfl
  | cons e rest ih =>
    intro st f hf
    simp only [List.map_cons, List.mem_cons, not_or] at hf
    simp only [List.foldl_cons]
    rw [ih _ f (by simpa using hf.2)]
    unfold fallbackStep
    split
    · rfl
    · cases fallbackEligible enriched st.used e.1 with
      | none => rfl
      | some idx =>
        simp only
        rw [lookupAssoc_append]
        have : lookupAssoc [(e.1, idx)] f = none := by
          have : (e.1 == f) = false := beq_eq_false_iff_ne.mpr (fun hh => hf.1 hh.symm)
          simp [lookupAssoc, List.find?, this]
        rw [this]
        cases lookupAssoc st.mapping f <;> simp

theorem fallbackEligible_iff (enriched : List LocationRecord) (used : List Nat)
    (folder : Str) (idx : Nat) :
    fallbackEligible enriched used folder = some idx ↔
      parseSpotIdx folder = some idx ∧ idx < enriched.length ∧ idx ∉ used ∧
        ∃ loc, enriched.get? idx = some loc ∧
          (locSpotsOf loc = [] ∨ some folder ∈ locSpotsOf loc) := by
  constructor
  · intro h
    unfold fallbackEligible at h
    split at h
    · exact absurd h (by simp)
    · rename_i j hp
      split at h
      · rename_i hc
        split at h
        · exact absurd h (by simp)
        · rename_i loc hg
          split at h
          · rename_i hl
            injection h with hji
            subst hji
            exact ⟨hp, hc.1, hc.2, loc, hg, hl⟩
          · exact absurd h (by simp)
      · exact absurd h (by simp)
  · rintro ⟨hpj, hlt, hnu, loc, hg, hcond⟩
    unfold fallbackEligible
    rw [hpj]
    dsimp only
    rw [if_pos ⟨hlt, hnu⟩, hg]
    dsimp only
    rw [if_pos hcond]

/-- C5 (amended): a folder left unresolved by the vote pass is assigned
by the positional fallback exactly when its name's embedded numeric
index parses, denotes an in-range enrichment record, has not been
claimed (by the vote pass or by an earlier-processed fallback folder),
and the location's declared images either contain no entry with a
non-empty path, or contain a non-empty path that parses to this same
folder (a non-empty path parsing to no folder still blocks the
fallback); otherwise the folder remains unresolved.  The outcome is
fixed at the folder's own processing step and undisturbed by later
folders. -/
theorem fallback_assignment (enriched : List LocationRecord)
    (initial : List (Str × Nat)) (pre post : List (Str × List Str))
    (folder : Str) (files : List Str)
    (hnd : ((pre ++ (folder, files) :: post).map Prod.fst).Nodup)
    (hun : lookupAssoc initial folder = none) :
    lookupAssoc (fallbackPass enriched (pre ++ (folder, files) :: post) initial) folder =
      fallbackEligible enriched
        ((pre.foldl (fallbackStep enriched) ⟨initial, initial.map (·.2)⟩).used) folder ∧
    ∀ idx,
      fallbackEligible enriched
          ((pre.foldl (fallbackStep enriched) ⟨initial, initial.map (·.2)⟩).used) folder
        = some idx ↔
      parseSpotIdx folder = some idx ∧ idx < enriched.length ∧
        idx ∉ (pre.foldl (fallbackStep enriched) ⟨initial, initial.map (·.2)⟩).used ∧
        ∃ loc, enriched.get? idx = some loc ∧
          (locSpotsOf loc = [] ∨ some folder ∈ locSpotsOf loc) := by
  have hnames : (pre ++ (folder, files) :: post).map Prod.fst =
      pre.map Prod.fst ++ folder :: post.map Prod.fst := by
    simp
  rw [hnames] at hnd
  have hmid := List.nodup_middle.mp hnd
  simp only [List.nodup_cons, List.mem_append, not_or] at hmid
  have hpre : folder ∉ pre.map Prod.fst := hmid.1.1
  have hpost : folder ∉ post.map Prod.fst := hmid.1.2
  refine ⟨?_, fun idx => fallbackEligible_iff enriched _ folder idx⟩
  unfold fallbackPass
  rw [List.foldl_append, List.foldl_cons]
  set st1 := pre.foldl (fallbackStep enriched) ⟨initial, initial.map (·.2)⟩ with hst1
  have hlook1 : lookupAssoc st1.mapping folder = none := by
    rw [hst1, fallback_lookup_unprocessed enriched pre _ folder hpre]
    exact hun
  rw [fallback_lookup_unprocessed enriched post _ folder hpost]
  unfold fallbackStep
  rw [hlook1]
  simp only [Option.isSome_none, Bool.false_eq_true, if_false]
  cases he : fallbackEligible enriched st1.used folder with
  | none => exact hlook1
  | some idx =>
    simp only
    rw [lookupAssoc_append, hlook1]
    simp [lookupAssoc, List.find?]

/-- A location record with no declared images, used by the C5 witness. -/
def emptyLoc : LocationRecord :=
  ⟨none, none, none, none, none, none, none, []⟩

/-- Witness for `fallback_assignment` at a concrete input: one location
with no declared images, one unresolved folder `spot_0`. -/
theorem fallback_assignment_witness :
    lookupAssoc (fallbackPass [emptyLoc] [(chars "spot_0", [chars "a.jpg"])] [])
        (chars "spot_0") =
      fallbackEligible [emptyLoc]
        (([] : List (Str × List Str)).foldl (fallbackStep [emptyLoc])
          ⟨[], ([] : List (Str × Nat)).map (·.2)⟩).used (chars "spot_0") :=
  (fallback_assignment [emptyLoc] [] [] [] (chars "spot_0") [chars "a.jpg"]
    (by decide) rfl).1

/-- The location record of the C5 counterexample: a single declared
image whose `local_path` is empty. -/
def emptyPathLoc : LocationRecord :=
  ⟨none, none, none, none, none, none, none, [[]]⟩

/-- C5 counterexample: the location's declared image list is non-empty
and none of its entries references folder `spot_0`, yet the fallback
assigns `spot_0` to location 0 — because entries with an empty path are
discarded before the "images reference this folder" test.  This refutes
the claim's "only if ... the location's declared images either are
empty or include a path referencing this same folder". -/
theorem fallback_counterexample :
    emptyPathLoc.images ≠ [] ∧
      (∀ p ∈ emptyPathLoc.images, ¬(p ≠ [] ∧
        get_spot_folder_from_path p = some (chars "spot_0"))) ∧
      lookupAssoc (fallbackPass [emptyPathLoc] [(chars "spot_0", [chars "a.jpg"])] [])
        (chars "spot_0") = some 0 :=
  ⟨by decide, by decide, by decide⟩

/-!
## GeoMath (`correct_coordinates_crawlee.py` lines 31-43)

The transcendental primitives of Python's `math` module (`radians`,
`sin`, `cos`, `sqrt`, `atan2`) are abstracted as function parameters:
their floating-point values are not embeddable, but the formula built
from them is, and the claim is about the formula.
-/

/-- `calculate_distance` (source lines 31-43). -/
def calculate_distance (radians sin cos sqrt : ℚ → ℚ) (atan2 : ℚ → ℚ → ℚ)
    (lat1 lon1 lat2 lon2 : ℚ) : ℚ :=
  let R : ℚ := 6371
  let dlat := radians (lat2 - lat1)
  let dlon := radians (lon2 - lon1)
  let a := sin (dlat / 2) ^ 2 +
    cos (radians lat1) * cos (radians lat2) * sin (dlon / 2) ^ 2
  let c := 2 * atan2 (sqrt a) (sqrt (1 - a))
  R * c

/-- Modelled from the spec's words: the reference half-angle Haversine
formula, `a = sin²(Δlat/2) + cos(lat1)·cos(lat2)·sin²(Δlon/2)` with
angles converted to radians, result `6371 · 2 · atan2(√a, √(1-a))`. -/
def haversineReference (radians sin cos sqrt : ℚ → ℚ) (atan2 : ℚ → ℚ → ℚ)
    (lat1 lon1 lat2 lon2 : ℚ) : ℚ :=
  let a := sin (radians (lat2 - lat1) / 2) ^ 2 +
    cos (radians lat1) * cos (radians lat2) * sin (radians (lon2 - lon1) / 2) ^ 2
  6371 * (2 * atan2 (sqrt a) (sqrt (1 - a)))

/-- C6: for all coordinate pairs (and any interpretation of the
transcendental primitives, in particular the floating-point one the
script uses), `calculate_distance` equals the reference half-angle
Haversine formula with Earth radius 6371 km. -/
theorem calculate_distance_matches_reference
    (radians sin cos sqrt : ℚ → ℚ) (atan2 : ℚ → ℚ → ℚ)
    (lat1 lon1 lat2 lon2 : ℚ) :
    calculate_distance radians sin cos sqrt atan2 lat1 lon1 lat2 lon2 =
      haversineReference radians sin cos sqrt atan2 lat1 lon1 lat2 lon2 := by
  unfold calculate_distance haversineReference
  ring

/-!
## GeoValidator/Corrector (`correct_coordinates_crawlee.py` lines 188-236)

The external lookup (`scrape_google_maps_coords`) is the opaque
collaborator `lookup : place_name → address → Option (lat, lng)`; the
distance computation is the `dist` parameter (the script calls
`calculate_distance`, a pure function of the four coordinates).
-/

/-- `DISTANCE_THRESHOLD_KM` (source line 25). -/
def DISTANCE_THRESHOLD_KM : ℚ := 5

/-- An entry of the `corrections` audit list (source lines 224-230). -/
structure Correction where
  index : Nat
  name : Str
  old_coords : ℚ × ℚ
  new_coords : ℚ × ℚ
  distance_km : ℚ
  deriving DecidableEq

/-- The loop state of `process_locations`: the processed records and the
`corrected`/`unchanged`/`error` counters plus the corrections list. -/
structure CorrState where
  locs : List LocationRecord
  corrected : Nat
  unchanged : Nat
  errors : Nat
  corrections : List Correction
  deriving DecidableEq

/-- One iteration of the `process_locations` loop (source lines
191-236): skip (counted unchanged) when there is no place name; count an
error and keep the record when the lookup misses; replace the coordinate
and append a `Correction` when the distance strictly exceeds the
threshold; otherwise keep the record and count it unchanged. -/
def corrStep (dist : ℚ → ℚ → ℚ → ℚ → ℚ)
    (lookup : Str → Str → Option (ℚ × ℚ)) (idx : Nat)
    (loc : LocationRecord) (st : CorrState) : CorrState :=
  if loc.place_name.getD [] = [] then
    { st with locs := st.locs ++ [loc], unchanged := st.unchanged + 1 }
  else
    match lookup (loc.place_name.getD []) (loc.address.getD []) with
    | none => { st with locs := st.locs ++ [loc], errors := st.errors + 1 }
    | some nc =>
      if dist (loc.latitude.getD 0) (loc.longitude.getD 0) nc.1 nc.2 >
          DISTANCE_THRESHOLD_KM then
        { st with
          locs := st.locs ++ [{ loc with latitude := some nc.1, longitude := some nc.2 }],
          corrected := st.corrected + 1,
          corrections := st.corrections ++
            [⟨idx, loc.place_name.getD [],
              (loc.latitude.getD 0, loc.longitude.getD 0), nc,
              dist (loc.latitude.getD 0) (loc.longitude.getD 0) nc.1 nc.2⟩] }
      else
        { st with locs := st.locs ++ [loc], unchanged := st.unchanged + 1 }

/-- Worker of `process_locations`: fold over the enumerated records. -/
def processAux (dist : ℚ → ℚ → ℚ → ℚ → ℚ)
    (lookup : Str → Str → Option (ℚ × ℚ)) :
    Nat → CorrState → List LocationRecord → CorrState
  | _, st, [] => st
  | idx, st, l :: ls => processAux dist lookup (idx + 1) (corrStep dist lookup idx l st) ls

/-- `process_locations` (source lines 188-236). -/
def process_locations (dist : ℚ → ℚ → ℚ → ℚ → ℚ)
    (lookup : Str → Str → Option (ℚ × ℚ)) (locs : List LocationRecord) : CorrState :=
  processAux dist lookup 0 ⟨[], 0, 0, 0, []⟩ locs

/-- Modelled from the spec's words: the per-record outcome — keep the
stored coordinate on a missing name or a lookup miss or a distance at
most the threshold, replace it when the distance strictly exceeds the
threshold. -/
def correctedRecord (dist : ℚ → ℚ → ℚ → ℚ → ℚ)
    (lookup : Str → Str → Option (ℚ × ℚ)) (loc : LocationRecord) : LocationRecord :=
  if loc.place_name.getD [] = [] then loc
  else
    match lookup (loc.place_name.getD []) (loc.address.getD []) with
    | none => loc
    | some nc =>
      if dist (loc.latitude.getD 0) (loc.longitude.getD 0) nc.1 nc.2 >
          DISTANCE_THRESHOLD_KM then
        { loc with latitude := some nc.1, longitude := some nc.2 }
      else loc

/-- Modelled from the spec's words: a record is a counted lookup miss
when it has a place name but the lookup returns nothing. -/
def isMiss (lookup : Str → Str → Option (ℚ × ℚ)) (loc : LocationRecord) : Bool :=
  decide (loc.place_name.getD [] ≠ []) &&
    (lookup (loc.place_name.getD []) (loc.address.getD [])).isNone

/-- Modelled from the spec's words: the `CorrectionRecord`s one record
emits (one when its distance strictly exceeds the threshold, none
otherwise). -/
def correctionOf (dist : ℚ → ℚ → ℚ → ℚ → ℚ)
    (lookup : Str → Str → Option (ℚ × ℚ)) (idx : Nat) (loc : LocationRecord) :
    List Correction :=
  if loc.place_name.getD [] = [] then []
  else
    match lookup (loc.place_name.getD []) (loc.address.getD []) with
    | none => []
    | some nc =>
      if dist (loc.latitude.getD 0) (loc.longitude.getD 0) nc.1 nc.2 >
          DISTANCE_THRESHOLD_KM then
        [⟨idx, loc.place_name.getD [],
          (loc.latitude.getD 0, loc.longitude.getD 0), nc,
          dist (loc.latitude.getD 0) (loc.longitude.getD 0) nc.1 nc.2⟩]
      else []

/-- Modelled from the spec's words: all emitted `CorrectionRecord`s in
processing order, starting at record index `idx`. -/
def specCorrectionsFrom (dist : ℚ → ℚ → ℚ → ℚ → ℚ)
    (lookup : Str → Str → Option (ℚ × ℚ)) :
    Nat → List LocationRecord → List Correction
  | _, [] => []
  | idx, loc :: ls =>
    correctionOf dist lookup idx loc ++ specCorrectionsFrom dist lookup (idx + 1) ls

-- Corrector lemmas.

theorem corrStep_locs (dist : ℚ → ℚ → ℚ → ℚ → ℚ)
    (lookup : Str → Str → Option (ℚ × ℚ)) (idx : Nat)
    (loc : LocationRecord) (st : CorrState) :
    (corrStep dist lookup idx loc st).locs =
      st.locs ++ [correctedRecord dist lookup loc] := by
  unfold corrStep correctedRecord
  by_cases hn : loc.place_name.getD [] = []
  · simp [hn]
  · simp only [hn, if_false]
    cases hl : lookup (loc.place_name.getD []) (loc.address.getD []) with
    | none => simp
    | some nc =>
      by_cases hd : dist (loc.latitude.getD 0) (loc.longitude.getD 0) nc.1 nc.2 >
          DISTANCE_THRESHOLD_KM
      · simp [hd]
      · simp [hd]

theorem corrStep_errors (dist : ℚ → ℚ → ℚ → ℚ → ℚ)
    (lookup : Str → Str → Option (ℚ × ℚ)) (idx : Nat)
    (loc : LocationRecord) (st : CorrState) :
    (corrStep dist lookup idx loc st).errors =
      st.errors + (if isMiss lookup loc then 1 else 0) := by
  unfold corrStep isMiss
  by_cases hn : loc.place_name.getD [] = []
  · simp [hn]
  · simp only [hn, if_false]
    cases hl : lookup (loc.place_name.getD []) (loc.address.getD []) with
    | none => simp [hn, hl]
    | some nc =>
      by_cases hd : dist (loc.latitude.getD 0) (loc.longitude.getD 0) nc.1 nc.2 >
          DISTANCE_THRESHOLD_KM
      · simp [hd, hl]
      · simp [hd, hl]

theorem corrStep_corrections (dist : ℚ → ℚ → ℚ → ℚ → ℚ)
    (lookup : Str → Str → Option (ℚ × ℚ)) (idx : Nat)
    (loc : LocationRecord) (st : CorrState) :
    (corrStep dist lookup idx loc st).corrections =
      st.corrections ++ correctionOf dist lookup idx loc := by
  unfold corrStep correctionOf
  by_cases hn : loc.place_name.getD [] = []
  · simp [hn]
  · simp only [hn, if_false]
    cases hl : lookup (loc.place_name.getD []) (loc.address.getD []) with
    | none => simp
    | some nc =>
      by_cases hd : dist (loc.latitude.getD 0) (loc.longitude.getD 0) nc.1 nc.2 >
          DISTANCE_THRESHOLD_KM
      · simp [hd]
      · simp [hd]

theorem processAux_locs (dist : ℚ → ℚ → ℚ → ℚ → ℚ)
    (lookup : Str → Str → Option (ℚ × ℚ)) (ls : List LocationRecord) :
    ∀ (idx : Nat) (st : CorrState),
      (processAux dist lookup idx st ls).locs =
        st.locs ++ ls.map (correctedRecord dist lookup) := by
  induction ls with
  | nil => intro idx st; simp [processAux]
  | cons l rest ih =>
    intro idx st
    simp only [processAux, List.map_cons]
    rw [ih, corrStep_locs]
    simp

theorem processAux_errors (dist : ℚ → ℚ → ℚ → ℚ → ℚ)
    (lookup : Str → Str → Option (ℚ × ℚ)) (ls : List LocationRecord) :
    ∀ (idx : Nat) (st : CorrState),
      (processAux dist lookup idx st ls).errors =
        st.errors + (ls.filter (isMiss lookup)).length := by
  induction ls with
  | nil => intro idx st; simp [processAux]
  | cons l rest ih =>
    intro idx st
    simp only [processAux]
    rw [ih, corrStep_errors]
    by_cases hm : isMiss lookup l
    · simp [List.filter, hm]
      omega
    · simp [List.filter, hm]

theorem processAux_corrections (dist : ℚ → ℚ → ℚ → ℚ → ℚ)
    (lookup : Str → Str → Option (ℚ × ℚ)) (ls : List LocationRecord) :
    ∀ (idx : Nat) (st : CorrState),
      (processAux dist lookup idx st ls).corrections =
        st.corrections ++ specCorrectionsFrom dist lookup idx ls := by
  induction ls with
  | nil => intro idx st; simp [processAux, specCorrectionsFrom]
  | cons l rest ih =>
    intro idx st
    simp only [processAux, specCorrectionsFrom]
    rw [ih, corrStep_corrections]
    simp

/-- C3: the coordinate corrector keeps a record unchanged and counts the
miss when the lookup yields no candidate; replaces the stored coordinate
and appends a `Correction` carrying the record's index, old coordinates,
new coordinates and distance when the candidate's distance strictly
exceeds the 5 km threshold; and keeps the record with no `Correction`
when the distance is at most the threshold.  The processed record list
is the input list with exactly these per-record outcomes, the error
counter counts exactly the lookup misses, and the corrections list
contains exactly the exceeding records' entries in processing order. -/
theorem coordinate_corrector_contract (dist : ℚ → ℚ → ℚ → ℚ → ℚ)
    (lookup : Str → Str → Option (ℚ × ℚ)) (locs : List LocationRecord) :
    (process_locations dist lookup locs).locs =
      locs.map (correctedRecord dist lookup) ∧
    (process_locations dist lookup locs).errors =
      (locs.filter (isMiss lookup)).length ∧
    (process_locations dist lookup locs).corrections =
      specCorrectionsFrom dist lookup 0 locs ∧
    ∀ loc : LocationRecord, loc.place_name.getD [] ≠ [] →
      (lookup (loc.place_name.getD []) (loc.address.getD []) = none →
        correctedRecord dist lookup loc = loc ∧ isMiss lookup loc = true) ∧
      (∀ nc : ℚ × ℚ,
        lookup (loc.place_name.getD []) (loc.address.getD []) = some nc →
        (dist (loc.latitude.getD 0) (loc.longitude.getD 0) nc.1 nc.2 >
            DISTANCE_THRESHOLD_KM →
          correctedRecord dist lookup loc =
            { loc with latitude := some nc.1, longitude := some nc.2 } ∧
          ∀ i, correctionOf dist lookup i loc =
            [⟨i, loc.place_name.getD [],
              (loc.latitude.getD 0, loc.longitude.getD 0), nc,
              dist (loc.latitude.getD 0) (loc.longitude.getD 0) nc.1 nc.2⟩]) ∧
        (¬(dist (loc.latitude.getD 0) (loc.longitude.getD 0) nc.1 nc.2 >
            DISTANCE_THRESHOLD_KM) →
          correctedRecord dist lookup loc = loc ∧
          ∀ i, correctionOf dist lookup i loc = [])) := by
  refine ⟨?_, ?_, ?_, ?_⟩
  · unfold process_locations
    rw [processAux_locs]
    simp
  · unfold process_locations
    rw [processAux_errors]
    simp
  · unfold process_locations
    rw [processAux_corrections]
    simp
  · intro loc hn
    constructor
    · intro hl
      unfold correctedRecord isMiss
      simp [hn, hl]
    · intro nc hl
      constructor
      · intro hd
        unfold correctedRecord correctionOf
        simp [hn, hl, hd]
      · intro hd
        unfold correctedRecord correctionOf
        simp [hn, hl, hd]

/-- The concrete record, distance and lookup of the C3 witness. -/
def witnessLoc : LocationRecord :=
  ⟨some 3, some 4, none, some (chars "X"), none, none, none, []⟩

/-- Witness for `coordinate_corrector_contract` at a concrete input: a
candidate 6 km away replaces the stored coordinate. -/
theorem coordinate_corrector_contract_witness :
    correctedRecord (fun _ _ _ _ => (6 : ℚ)) (fun _ _ => some ((1 : ℚ), (2 : ℚ)))
        witnessLoc =
      { witnessLoc with latitude := some 1, longitude := some 2 } := by
  have H := coordinate_corrector_contract (fun _ _ _ _ => (6 : ℚ))
    (fun _ _ => some ((1 : ℚ), (2 : ℚ))) [witnessLoc]
  have h1 := (H.2.2.2 witnessLoc (by decide)).2 ((1 : ℚ), (2 : ℚ)) rfl
  exact (h1.1 (by norm_num [DISTANCE_THRESHOLD_KM])).1

/-!
## Geofence (`filter_malaysia_only.py`)

The bounding-box bounds are module-level configuration constants in the
source; the membership test is embedded with the bounds as parameters so
that claims quantifying over the configuration can be stated, and the
Malaysia constants are defined separately.
-/

/-- `MALAYSIA_LAT_MIN` (source line 18). -/
def MALAYSIA_LAT_MIN : ℚ := 0.8

/-- `MALAYSIA_LAT_MAX` (source line 19). -/
def MALAYSIA_LAT_MAX : ℚ := 7.4

/-- `MALAYSIA_LNG_MIN` (source line 20). -/
def MALAYSIA_LNG_MIN : ℚ := 99.6

/-- `MALAYSIA_LNG_MAX` (source line 21). -/
def MALAYSIA_LNG_MAX : ℚ := 119.3

/-- Python `str.lower()` on the ASCII text the filter handles. -/
def lowerStr (s : Str) : Str := s.map Char.toLower

/-- `f"{name} {description} {address}"` (source line 29). -/
def joinedText (name description address : Str) : Str :=
  name ++ ' ' :: description ++ ' ' :: address

/-- The excluded-region text markers (source line 30). -/
def excludedMarkers : List Str := [chars "singapore", chars "pulau ubin"]

/-- `is_malaysia_location` (source lines 23-35), with the bounding-box
bounds as explicit configuration parameters. -/
def is_malaysia_location (latMin latMax lngMin lngMax : ℚ) (lat lng : ℚ)
    (name description address : Str) : Bool :=
  if lat = 0 ∧ lng = 0 then false
  else if containsSub (chars "singapore") (lowerStr (joinedText name description address))
      || containsSub (chars "pulau ubin") (lowerStr (joinedText name description address))
    then false
  else decide (latMin ≤ lat ∧ lat ≤ latMax ∧ lngMin ≤ lng ∧ lng ≤ lngMax)

/-- Modelled from the spec's words: `inBoundingBox`, an inclusive range
test on both axes. -/
def inBoundingBox (latMin latMax lngMin lngMax lat lng : ℚ) : Prop :=
  latMin ≤ lat ∧ lat ≤ latMax ∧ lngMin ≤ lng ∧ lng ≤ lngMax

/-- C4: for every configuration and record, the geofence membership test
rejects the record exactly when its coordinate is `(0,0)`, or the
coordinate lies outside the (inclusive) bounding box, or the lowercased
concatenation of name, description and address contains an
excluded-region marker; and a `(0,0)` record is rejected for every
bounding-box configuration. -/
theorem geofence_membership (latMin latMax lngMin lngMax lat lng : ℚ)
    (name description address : Str) :
    (is_malaysia_location latMin latMax lngMin lngMax lat lng name description address
        = false ↔
      ((lat = 0 ∧ lng = 0) ∨
        ¬inBoundingBox latMin latMax lngMin lngMax lat lng ∨
        ∃ m ∈ excludedMarkers,
          containsSub m (lowerStr (joinedText name description address)) = true)) ∧
    is_malaysia_location latMin latMax lngMin lngMax 0 0 name description address
      = false := by
  constructor
  · unfold is_malaysia_location inBoundingBox
    by_cases hz : lat = 0 ∧ lng = 0
    · simp [hz]
    · rw [if_neg hz]
      by_cases hm :
          (containsSub (chars "singapore") (lowerStr (joinedText name description address))
            || containsSub (chars "pulau ubin")
              (lowerStr (joinedText name description address))) = true
      · rw [if_pos hm]
        simp only [Bool.or_eq_true] at hm
        simp only [excludedMarkers, List.mem_cons, List.mem_singleton, true_iff]
        rcases hm with h1 | h2
        · exact Or.inr (Or.inr ⟨chars "singapore", Or.inl rfl, h1⟩)
        · exact Or.inr (Or.inr ⟨chars "pulau ubin", Or.inr (Or.inl rfl), h2⟩)
      · rw [if_neg hm]
        simp only [Bool.or_eq_true, not_or, Bool.not_eq_true] at hm
        simp only [decide_eq_false_iff_not, excludedMarkers, List.mem_cons,
          List.mem_singleton]
        constructor
        · intro hnb
          exact Or.inr (Or.inl hnb)
        · rintro (h0 | hnb | ⟨m, hmem, hc⟩)
          · exact absurd h0 hz
          · exact hnb
          · rcases hmem with rfl | hmem
            · rw [hm.1] at hc
              exact absurd hc (by simp)
            · rcases hmem with rfl | hmem
              · rw [hm.2] at hc
                exact absurd hc (by simp)
              · simp at hmem
  · unfold is_malaysia_location
    simp

/-!
## Geofence filter (`filter_malaysia_only.py` lines 54-77)
-/

/-- The membership predicate applied to a canonical record (source lines
57-64), at the Malaysia configuration constants. -/
def keepSpot (s : Spot) : Bool :=
  is_malaysia_location MALAYSIA_LAT_MIN MALAYSIA_LAT_MAX MALAYSIA_LNG_MIN
    MALAYSIA_LNG_MAX s.lat s.lng s.name s.description s.address

/-- The id-renumbering loop (source lines 72-73): the `i`-th surviving
record (0-based) receives id `i + 1`. -/
def renumAux : Nat → List Spot → List Spot
  | _, [] => []
  | i, s :: ss => { s with id := i + 1 } :: renumAux (i + 1) ss

/-- `filter_malaysia_spots` (source lines 54-77): keep the records the
geofence admits, in order, then renumber ids sequentially from 1. -/
def filter_malaysia_spots (spots : List Spot) : List Spot :=
  renumAux 0 (spots.filter keepSpot)

/-- A record with its id cleared, for stating "unchanged except id". -/
def stripId (s : Spot) : Spot := { s with id := 0 }

-- Filter lemmas.

theorem renumAux_strip (l : List Spot) :
    ∀ i, (renumAux i l).map stripId = l.map stripId := by
  induction l with
  | nil => intro i; rfl
  | cons s ss ih =>
    intro i
    simp only [renumAux, List.map_cons, ih]
    rfl

theorem renumAux_ids (l : List Spot) :
    ∀ i, (renumAux i l).map (·.id) = List.range' (i + 1) l.length := by
  induction l with
  | nil => intro i; rfl
  | cons s ss ih =>
    intro i
    simp only [renumAux, List.map_cons, List.length_cons, List.range'_succ, ih]

theorem renumAux_length (l : List Spot) : ∀ i, (renumAux i l).length = l.length := by
  induction l with
  | nil => intro i; rfl
  | cons s ss ih => intro i; simp [renumAux, ih]

theorem renumAux_renumAux (l : List Spot) :
    ∀ i, renumAux i (renumAux i l) = renumAux i l := by
  induction l with
  | nil => intro i; rfl
  | cons s ss ih =>
    intro i
    simp only [renumAux, ih]

theorem filter_renumAux_of_keep (l : List Spot) (hl : ∀ s ∈ l, keepSpot s = true) :
    ∀ i, (renumAux i l).filter keepSpot = renumAux i l := by
  induction l with
  | nil => intro i; rfl
  | cons s ss ih =>
    intro i
    have hs : keepSpot { s with id := i + 1 } = true := hl s (List.mem_cons_self _ _)
    simp only [renumAux, List.filter, hs]
    rw [ih (fun t ht => hl t (List.mem_cons_of_mem _ ht))]

/-- C10: the geofence filter's output is, up to the renumbered `id`
field, a subsequence of the input in the input's order; every surviving
record is unchanged in every field except `id`, which becomes the
record's 1-based output position; the membership predicate ignores `id`;
and the filter is idempotent. -/
theorem geofence_filter_frame (l : List Spot) :
    ((filter_malaysia_spots l).map stripId).Sublist (l.map stripId) ∧
    (filter_malaysia_spots l).map (·.id) =
      List.range' 1 (filter_malaysia_spots l).length ∧
    (∀ (s : Spot) (i : Nat), keepSpot { s with id := i } = keepSpot s) ∧
    filter_malaysia_spots (filter_malaysia_spots l) = filter_malaysia_spots l := by
  refine ⟨?_, ?_, fun s i => rfl, ?_⟩
  · unfold filter_malaysia_spots
    rw [renumAux_strip]
    exact (List.filter_sublist l).map stripId
  · unfold filter_malaysia_spots
    rw [renumAux_ids, renumAux_length]
  · unfold filter_malaysia_spots
    rw [filter_renumAux_of_keep (l.filter keepSpot)
      (fun s hs => List.of_mem_filter hs) 0]
    exact renumAux_renumAux _ 0

/-!
## MergeAssembler (`fix_spots_mapping_v2.py` lines 141-185 and
`update_spots_json.py` lines 65-107)
-/

/-- `f"images/spots/{spot_folder}/{img}"` (v2 source line 146). -/
def imagePathOf (folder img : Str) : Str :=
  chars "images/spots/" ++ folder ++ '/' :: img

/-- The synthesized record for a folder with no usable location data
(v2 source lines 166-183): name from the folder's embedded index when it
parses, else from the output position, zero coordinates and placeholder
fields. -/
def fallbackSpotV2 (nextPos : Nat) (folder : Str) (images : List Str) : Spot :=
  { id := nextPos + 1,
    name := chars "Drone Spot " ++ natToStr ((parseSpotIdx folder).getD nextPos + 1),
    lat := 0,
    lng := 0,
    description := chars "Beautiful drone location",
    category := chars "Nature",
    images := images,
    rating := none,
    address := [],
    notes := chars "Check local rules" }

/-- The record built for one folder by the v2 assembler (source lines
143-183): location metadata (with per-field defaults) when the resolved
mapping yields an in-range index, the synthesized fallback otherwise;
`nextPos` is `len(spots)`, the number of records already built. -/
def mkSpotV2 (enriched : List LocationRecord) (mapping : Str → Option Nat)
    (nextPos : Nat) (folder : Str) (files : List Str) : Spot :=
  match mapping folder with
  | some loc_idx =>
    if h : loc_idx < enriched.length then
      { id := nextPos + 1,
        name := (enriched.get ⟨loc_idx, h⟩).place_name.getD
          (chars "Spot " ++ natToStr (loc_idx + 1)),
        lat := (enriched.get ⟨loc_idx, h⟩).latitude.getD 0,
        lng := (enriched.get ⟨loc_idx, h⟩).longitude.getD 0,
        description := (enriched.get ⟨loc_idx, h⟩).description.getD
          (chars "Beautiful drone location"),
        category := (enriched.get ⟨loc_idx, h⟩).category.getD (chars "Nature"),
        images := sortLe strLe (files.map (imagePathOf folder)),
        rating := (enriched.get ⟨loc_idx, h⟩).rating,
        address := (enriched.get ⟨loc_idx, h⟩).address.getD [],
        notes := chars "Check local rules" }
    else fallbackSpotV2 nextPos folder (sortLe strLe (files.map (imagePathOf folder)))
  | none => fallbackSpotV2 nextPos folder (sortLe strLe (files.map (imagePathOf folder)))

/-- One iteration of the v2 spot-building loop (source lines 142-185):
append the folder's record, whose id is `len(spots) + 1`. -/
def assembleStepV2 (enriched : List LocationRecord) (mapping : Str → Option Nat)
    (acc : List Spot) (entry : Str × List Str) : List Spot :=
  acc ++ [mkSpotV2 enriched mapping acc.length entry.1 entry.2]

/-- The v2 `fix_spots_json` record-building pass (source lines 141-185):
folders in sorted name order, one record each. -/
def fix_spots_json_v2 (enriched : List LocationRecord) (mapping : Str → Option Nat)
    (inventory : List (Str × List Str)) : List Spot :=
  (sortLe (fun a b => strLe a.1 b.1) inventory).foldl
    (assembleStepV2 enriched mapping) []

/-- The record built by `update_spots_json` for the folder with embedded
index `spot_idx` (source lines 72-107): metadata from `spots_data` when
the index is in range, placeholders otherwise; the id is `spot_idx + 1`. -/
def mkSpotUpd (spots_data : List LocationRecord) (spot_idx : Nat)
    (folder : Str) (files : List Str) : Spot :=
  if h : spot_idx < spots_data.length then
    { id := spot_idx + 1,
      name := (spots_data.get ⟨spot_idx, h⟩).place_name.getD
        (chars "Spot " ++ natToStr (spot_idx + 1)),
      lat := (spots_data.get ⟨spot_idx, h⟩).latitude.getD 0,
      lng := (spots_data.get ⟨spot_idx, h⟩).longitude.getD 0,
      description := (spots_data.get ⟨spot_idx, h⟩).description.getD
        (chars "Beautiful drone location"),
      category := (spots_data.get ⟨spot_idx, h⟩).category.getD (chars "Nature"),
      images := sortLe strLe (files.map (imagePathOf folder)),
      rating := (spots_data.get ⟨spot_idx, h⟩).rating,
      address := (spots_data.get ⟨spot_idx, h⟩).address.getD [],
      notes := chars "Check local rules" }
  else
    { id := spot_idx + 1,
      name := chars "Spot " ++ natToStr (spot_idx + 1),
      lat := 0,
      lng := 0,
      description := chars "Beautiful drone location",
      category := chars "Nature",
      images := sortLe strLe (files.map (imagePathOf folder)),
      rating := none,
      address := [],
      notes := chars "Check local rules" }

/-- `update_spots_json` (source lines 60-107): folders in sorted name
order; a folder whose name does not parse to an index is skipped
entirely; otherwise its record carries id `spot_idx + 1`. -/
def update_spots_json (spots_data : List LocationRecord)
    (inventory : List (Str × List Str)) : List Spot :=
  (sortLe (fun a b => strLe a.1 b.1) inventory).foldl
    (fun acc e =>
      match parseSpotIdx e.1 with
      | none => acc
      | some idx => acc ++ [mkSpotUpd spots_data idx e.1 e.2])
    []

-- Assembler lemmas.

theorem mkSpotV2_id (enriched : List LocationRecord) (mapping : Str → Option Nat)
    (nextPos : Nat) (folder : Str) (files : List Str) :
    (mkSpotV2 enriched mapping nextPos folder files).id = nextPos + 1 := by
  unfold mkSpotV2 fallbackSpotV2
  cases mapping folder with
  | none => rfl
  | some idx =>
    dsimp only
    by_cases h : idx < enriched.length
    · rw [dif_pos h]
    · rw [dif_neg h]

theorem assembleV2_foldl_ids (enriched : List LocationRecord)
    (mapping : Str → Option Nat) (l : List (Str × List Str)) :
    ∀ acc : List Spot,
      (l.foldl (assembleStepV2 enriched mapping) acc).map (·.id) =
        acc.map (·.id) ++ List.range' (acc.length + 1) l.length := by
  induction l with
  | nil => intro acc; simp
  | cons e rest ih =>
    intro acc
    simp only [List.foldl_cons, List.length_cons]
    rw [ih]
    unfold assembleStepV2
    simp only [List.map_append, List.length_append, List.map_cons, List.map_nil,
      List.length_cons, List.length_nil, mkSpotV2_id]
    rw [List.range'_succ]
    simp [List.append_assoc]

/-- C8 (amended): the v2 assembler (`fix_spots_mapping_v2.fix_spots_json`)
emits, for every non-empty inventory of N folders, exactly N records
with id sequence exactly `1..N`, regardless of the resolved mapping and
the enrichment data.  (`update_spots_json` does not satisfy the claim:
it derives each id from the folder's embedded index and skips
unparsable folders, so its id sequence can have gaps — see the
counterexample.) -/
theorem assembler_ids_v2 (enriched : List LocationRecord)
    (mapping : Str → Option Nat) (inventory : List (Str × List Str))
    (_hne : inventory ≠ []) :
    (fix_spots_json_v2 enriched mapping inventory).map (·.id) =
      List.range' 1 inventory.length := by
  unfold fix_spots_json_v2
  rw [assembleV2_foldl_ids]
  simp [length_sortLe]

/-- Witness for `assembler_ids_v2` at a concrete input. -/
theorem assembler_ids_v2_witness :
    (fix_spots_json_v2 [] (fun _ => none) [(chars "spot_0", [chars "a.jpg"])]).map
        (·.id) =
      List.range' 1 ([(chars "spot_0", [chars "a.jpg"])] : List (Str × List Str)).length :=
  assembler_ids_v2 [] (fun _ => none) [(chars "spot_0", [chars "a.jpg"])] (by simp)

/-- C8 counterexample: `update_spots_json` on the two-folder inventory
`spot_0`, `spot_2` emits ids `[1, 3]` — not the dense sequence `[1, 2]`
— refuting the claim for the cited `update_spots_json` assembler. -/
theorem assembler_ids_counterexample :
    ([(chars "spot_0", [chars "a.jpg"]), (chars "spot_2", [chars "b.jpg"])]
        : List (Str × List Str)).length = 2 ∧
      (update_spots_json []
          [(chars "spot_0", [chars "a.jpg"]), (chars "spot_2", [chars "b.jpg"])]).map
          (·.id) = [1, 3] ∧
      ([1, 3] : List Nat) ≠ List.range' 1 2 :=
  ⟨by decide, by decide, by decide⟩
